import Mathlib

/-!
Shallow embedding of the generic-entity-management library
(manager, in-memory strategy, query/pagination utilities, and the
TypeORM-style adapter's control flow), with theorems checking the
specification's claims against these definitions.

Conventions of the embedding:
* TypeScript arrays become `List`; `Array.prototype.filter`, `slice`,
  `findIndex`, `splice`, `find` become the corresponding `List`
  operations (`filter`, `drop`/`take`, `findIdx?`, `eraseIdx`/`set`,
  `find?`).
* `Array.prototype.sort(cmp)` (specified stable in JS) becomes
  `List.mergeSort` ordered by `cmp a b ≤ 0`.
* JS numbers appearing as page indices are embedded as `Int`; after the
  source clamps them with `Math.max(1, ·)` they are non-negative and are
  carried as `Nat` (`Int.toNat` of the clamped value).
* `async` methods of the in-memory strategy are pure state-passing
  functions on the stored entity list (the in-memory strategy resolves
  every promise immediately); thrown exceptions of the TypeORM adapter
  are `Except Unit`.
-/

namespace GEM

/-- `QueryOptions<T>` from the query types file: optional primary
predicate, optional AND-filter list, optional comparator, optional
1-based page and page size. -/
structure QueryOptions (T : Type) where
  predicate : Option (T → Bool) := none
  filters : Option (List (T → Bool)) := none
  sortBy : Option (T → T → Int) := none
  page : Option Int := none
  pageSize : Option Int := none

/-- `PageResult<T>` from the query types file. -/
structure PageResult (T : Type) where
  items : List T
  page : Nat
  pageSize : Nat
  totalItems : Nat
  totalPages : Nat
  hasNext : Bool
  hasPrev : Bool
  deriving Repr

variable {T : Type}

/-- The boolean order a JS stable sort with comparator `cmp` sorts by:
`a` may precede `b` when `cmp a b ≤ 0`. -/
def sortLe (cmp : T → T → Int) (a b : T) : Bool :=
  decide (cmp a b ≤ 0)

/-- The filter callback of `applyFunctionalFilters`: the main predicate
(true when absent) AND every entry of `filters` (empty when absent). -/
def passesFilters (predicate : Option (T → Bool)) (filters : List (T → Bool))
    (entity : T) : Bool :=
  (match predicate with
   | some p => p entity
   | none => true) &&
  filters.all fun f => f entity

/-- `applyFunctionalFilters` from `query-utils.ts`: filter by the main
predicate and the AND-combined `filters`, then, when `sortBy` is
present, sort a copy of the filtered array with the comparator. -/
def applyFunctionalFilters (items : List T) (options : Option (QueryOptions T)) :
    List T :=
  let predicate := options.bind fun o => o.predicate
  let filters := (options.bind fun o => o.filters).getD []
  let filtered := items.filter (passesFilters predicate filters)
  match options.bind fun o => o.sortBy with
  | some cmp => filtered.mergeSort (sortLe cmp)
  | none => filtered

/-- `paginate` from `query-utils.ts`.  `Math.ceil(totalItems / safeSize)`
on non-negative integers with `safeSize ≥ 1` is `(totalItems + safeSize - 1) / safeSize`,
and `items.slice(start, start + safeSize)` with `0 ≤ start` is
`(items.drop start).take safeSize`. -/
def paginate (items : List T) (page : Int := 1) (pageSize : Int := 10) :
    PageResult T :=
  let safePage : Nat := (max 1 page).toNat
  let safeSize : Nat := (max 1 pageSize).toNat
  let totalItems : Nat := items.length
  let totalPages : Nat := max 1 ((totalItems + safeSize - 1) / safeSize)
  let realPage : Nat := min safePage totalPages
  let start : Nat := (realPage - 1) * safeSize
  { items := (items.drop start).take safeSize
    page := realPage
    pageSize := safeSize
    totalItems := totalItems
    totalPages := totalPages
    hasNext := decide (realPage < totalPages)
    hasPrev := decide (realPage > 1) }

namespace InMemoryEntityStrategy

/-- `add`: push onto the internal array. -/
def add (entities : List T) (entity : T) : List T :=
  entities ++ [entity]

/-- `remove`: `findIndex` with the equality policy, `splice(index, 1)`
when found; returns the found flag and the new stored list. -/
def remove (entities : List T) (entity : T) (equalsFn : T → T → Bool) :
    Bool × List T :=
  match entities.findIdx? fun e => equalsFn e entity with
  | none => (false, entities)
  | some index => (true, entities.eraseIdx index)

/-- `getAll`: returns the defensive copy `[...this.entities]`; as a pure
value this is the stored list itself (the aliasing content of the copy
is modelled separately by the heap model below). -/
def getAll (entities : List T) : List T :=
  entities

/-- `update`: `findIndex` with the equality policy, then assign the new
entity at that index; returns the found flag and the new stored list. -/
def update (entities : List T) (oldEntity newEntity : T)
    (equalsFn : T → T → Bool) : Bool × List T :=
  match entities.findIdx? fun e => equalsFn e oldEntity with
  | none => (false, entities)
  | some index => (true, entities.set index newEntity)

/-- `count`: length of the internal array. -/
def count (entities : List T) : Nat :=
  entities.length

/-- `getOne`: first entity satisfying the predicate. -/
def getOne (entities : List T) (predicate : T → Bool) : Option T :=
  entities.find? predicate

/-- Native `find` of the in-memory strategy. -/
def find (entities : List T) (options : Option (QueryOptions T)) : List T :=
  applyFunctionalFilters entities options

/-- Native `findPage` of the in-memory strategy: filter, then paginate
with `options.page ?? 1` and `options.pageSize ?? 10`. -/
def findPage (entities : List T) (options : QueryOptions T) : PageResult T :=
  paginate (applyFunctionalFilters entities (some options))
    (options.page.getD 1) (options.pageSize.getD 10)

/-- `clear`: reset the internal array. -/
def clear (_ : List T) : List T :=
  ([] : List T)

end InMemoryEntityStrategy

namespace ManagementEntity

/-- The manager's `findEntities` fallback path (strategy exposes no
native `find`): fetch all entities via `getAll` and apply the query
filter engine locally. -/
def findEntitiesFallback (all : List T) (options : Option (QueryOptions T)) :
    List T :=
  applyFunctionalFilters (InMemoryEntityStrategy.getAll all) options

/-- The manager's `findEntitiesPage` fallback path (strategy exposes no
native `findPage`): `findEntities` followed by `paginate` with
`options.page ?? 1` and `options.pageSize ?? 10`. -/
def findEntitiesPageFallback (all : List T) (options : QueryOptions T) :
    PageResult T :=
  paginate (findEntitiesFallback all (some options))
    (options.page.getD 1) (options.pageSize.getD 10)

end ManagementEntity

/-! Operation sequences against the in-memory strategy (for the count
invariant): each constructor carries exactly the arguments the manager
passes to the strategy. -/

/-- One mutating operation of the in-memory strategy. -/
inductive Op (T : Type) where
  | add (entity : T)
  | remove (entity : T) (equalsFn : T → T → Bool)
  | update (oldEntity newEntity : T) (equalsFn : T → T → Bool)

/-- Run one operation on the stored entity list. -/
def applyOp (entities : List T) : Op T → List T
  | .add e => InMemoryEntityStrategy.add entities e
  | .remove e equalsFn => (InMemoryEntityStrategy.remove entities e equalsFn).2
  | .update o n equalsFn => (InMemoryEntityStrategy.update entities o n equalsFn).2

/-- Run a sequence of operations on the stored entity list. -/
def applyOps (entities : List T) : List (Op T) → List T
  | [] => entities
  | op :: ops => applyOps (applyOp entities op) ops

/-- Specification-side counting rule for one operation: an add counts
+1, a remove that reports `true` counts -1, a remove that reports
`false` counts 0, an update counts 0. -/
def liveCountStep (entities : List T) (c : Nat) : Op T → Nat
  | .add _ => c + 1
  | .remove e equalsFn =>
      if (InMemoryEntityStrategy.remove entities e equalsFn).1 then c - 1 else c
  | .update _ _ _ => c

/-- Specification-side count of live entities after a sequence of
operations, accumulated by the per-operation rule. -/
def liveCountRun (entities : List T) (c : Nat) : List (Op T) → Nat
  | [] => c
  | op :: ops => liveCountRun (applyOp entities op) (liveCountStep entities c op) ops

/-! A small reference heap, to state aliasing facts about the defensive
copy made by `getAll` (`return [...this.entities]`).  A heap is a list
of array cells; a reference is an index into it.  `alloc` appends a
fresh cell, so the returned reference is distinct from every live one. -/

/-- Heap of array cells. -/
structure Heap (T : Type) where
  cells : List (List T)

/-- Dereference: contents of cell `r` (dangling references read `[]`). -/
def Heap.read (h : Heap T) (r : Nat) : List T :=
  (h.cells[r]?).getD []

/-- Mutate the array behind reference `r` in place. -/
def Heap.write (h : Heap T) (r : Nat) (v : List T) : Heap T :=
  ⟨h.cells.set r v⟩

/-- Allocate a fresh array cell holding `v`; returns the new heap and
the fresh reference. -/
def Heap.alloc (h : Heap T) (v : List T) : Heap T × Nat :=
  (⟨h.cells ++ [v]⟩, h.cells.length)

/-- `getAll` with the copy made explicit: read the strategy's entities
cell and allocate a fresh cell with the same contents
(`[...this.entities]`); the caller receives the fresh reference. -/
def getAllRef (h : Heap T) (entitiesRef : Nat) : Heap T × Nat :=
  h.alloc (h.read entitiesRef)

/-- `count` against the heap: length of the strategy's entities cell. -/
def countRef (h : Heap T) (entitiesRef : Nat) : Nat :=
  (h.read entitiesRef).length

/-! The TypeORM-style strategy.  Entities of this adapter are JS
records, embedded as association lists of string keys and integer
values; the object spread `{...a, ...b}` keeps `a`'s keys in order with
`b`'s values overriding, then appends `b`'s new keys.  The external
repository is modelled by its visible rows and by which arguments make
`repo.remove` / `repo.save` throw; a propagated exception is
`Except.error ()`. -/

/-- A JS record: association list of key/value pairs (keys distinct). -/
abbrev Obj := List (String × Int)

/-- Key lookup in a JS record. -/
def objGet (o : Obj) (k : String) : Option Int :=
  (o.find? fun p => p.1 == k).map fun p => p.2

/-- JS object spread `{...a, ...b}`. -/
def spread (a b : Obj) : Obj :=
  (a.map fun p => (p.1, (objGet b p.1).getD p.2)) ++
    (b.filter fun p => (objGet a p.1).isNone)

/-- Model of a `TypeOrmRepositoryLike`: the rows `repo.find()` returns,
and the fault behavior of `repo.remove` and `repo.save` per argument. -/
structure TypeOrmRepo where
  rows : List Obj
  removeFaultsOn : Obj → Bool
  saveFaultsOn : Obj → Bool

namespace TypeOrmEntityStrategy

/-- `remove` of the TypeORM strategy: try the primary `repo.remove`
(modelled, on success, as erasing the first identical row); on a fault,
scan `repo.find()` with the equality policy, report `false` when
nothing matches, otherwise `repo.remove` the match.  Returns the
reported flag and the rows after the call. -/
def remove (repo : TypeOrmRepo) (entity : Obj) (equalsFn : Obj → Obj → Bool) :
    Except Unit (Bool × List Obj) :=
  if repo.removeFaultsOn entity then
    match repo.rows.find? fun e => equalsFn e entity with
    | none => .ok (false, repo.rows)
    | some m =>
      if repo.removeFaultsOn m then .error ()
      else .ok (true, repo.rows.erase m)
  else .ok (true, repo.rows.erase entity)

/-- `update` of the TypeORM strategy: try `repo.save({...old, ...new})`;
on a fault, scan with the equality policy, report `false` when nothing
matches, otherwise `repo.save({...match, ...new})`.  Returns the
reported flag and the payload handed to the successful save (if any). -/
def update (repo : TypeOrmRepo) (oldEntity newEntity : Obj)
    (equalsFn : Obj → Obj → Bool) : Except Unit (Bool × Option Obj) :=
  if repo.saveFaultsOn (spread oldEntity newEntity) then
    match repo.rows.find? fun e => equalsFn e oldEntity with
    | none => .ok (false, none)
    | some m =>
      if repo.saveFaultsOn (spread m newEntity) then .error ()
      else .ok (true, some (spread m newEntity))
  else .ok (true, some (spread oldEntity newEntity))

end TypeOrmEntityStrategy

/-! Concrete instances used to instantiate theorems with hypotheses. -/

/-- Ascending comparator on naturals, in the JS style (negative means
`a` before `b`). -/
def sampleCmp : Nat → Nat → Int :=
  fun a b => (a : Int) - (b : Int)

/-- Query options exercising predicate, filters and sorting. -/
def sampleSortOptions : QueryOptions Nat :=
  { predicate := some fun e => decide (0 < e)
    filters := some [fun e => decide (e ≤ 2)]
    sortBy := some sampleCmp }

/-- Equality policy comparing JS records by their `id` key. -/
def eqById : Obj → Obj → Bool :=
  fun a b => objGet a "id" == objGet b "id"

/-- A repository whose `remove` faults on records with more than one
key (say, detached entities) and whose `save` always succeeds. -/
def sampleRepo : TypeOrmRepo :=
  { rows := [[("id", 1)]]
    removeFaultsOn := fun e => decide (1 < e.length)
    saveFaultsOn := fun _ => false }

/-! Theorems. -/

/-- C1: the Entity Manager's fallback paginated search — `findEntities`
followed by `paginate`, over a strategy with no native `findPage` —
returns a page whose `items`, `totalItems` and `totalPages` are
identical to those of the in-memory reference backend's native
`findPage` given the same options over the same entity sequence. -/
theorem fallback_findPage_matches_inMemory (entities : List T)
    (options : QueryOptions T) :
    (ManagementEntity.findEntitiesPageFallback entities options).items
        = (InMemoryEntityStrategy.findPage entities options).items ∧
    (ManagementEntity.findEntitiesPageFallback entities options).totalItems
        = (InMemoryEntityStrategy.findPage entities options).totalItems ∧
    (ManagementEntity.findEntitiesPageFallback entities options).totalPages
        = (InMemoryEntityStrategy.findPage entities options).totalPages :=
  ⟨rfl, rfl, rfl⟩

/-- The length of the stored list after one operation follows the
specification's per-operation counting rule. -/
theorem applyOp_length (entities : List T) (op : Op T) :
    (applyOp entities op).length = liveCountStep entities entities.length op := by
  cases op with
  | add e => simp [applyOp, liveCountStep, InMemoryEntityStrategy.add]
  | remove e equalsFn =>
    cases h : entities.findIdx? fun x => equalsFn x e with
    | none => simp [applyOp, liveCountStep, InMemoryEntityStrategy.remove, h]
    | some i =>
      obtain ⟨hi, -, -⟩ := List.findIdx?_eq_some_iff_getElem.mp h
      simp [applyOp, liveCountStep, InMemoryEntityStrategy.remove, h,
        List.length_eraseIdx_of_lt hi]
  | update o n equalsFn =>
    cases h : entities.findIdx? fun x => equalsFn x o with
    | none => simp [applyOp, liveCountStep, InMemoryEntityStrategy.update, h]
    | some i => simp [applyOp, liveCountStep, InMemoryEntityStrategy.update, h]

/-- C5: for every finite sequence of add/remove/update operations run
against the in-memory backend from the empty state, `count` afterwards
equals the number of live entities computed by the claim's rules: +1
per add, -1 per remove that returned `true`, unchanged per remove that
returned `false` and per update. -/
theorem count_matches_live_entities (ops : List (Op T)) :
    InMemoryEntityStrategy.count (applyOps ([] : List T) ops)
        = liveCountRun ([] : List T) 0 ops := by
  suffices h : ∀ s : List T, (applyOps s ops).length = liveCountRun s s.length ops by
    simpa [InMemoryEntityStrategy.count] using h []
  induction ops with
  | nil => intro s; rfl
  | cons op ops ih =>
    intro s
    simp only [applyOps, liveCountRun]
    have h2 := ih (applyOp s op)
    rw [applyOp_length s op] at h2
    exact h2

/-- C7: when no stored entity equals the argument under the equality
policy, `remove` reports `false` and leaves the stored list exactly
unchanged, and `update` with that argument as the old entity does the
same. -/
theorem remove_update_no_match (entities : List T) (entity newEntity : T)
    (equalsFn : T → T → Bool)
    (h : ∀ e ∈ entities, equalsFn e entity = false) :
    InMemoryEntityStrategy.remove entities entity equalsFn = (false, entities) ∧
    InMemoryEntityStrategy.update entities entity newEntity equalsFn
        = (false, entities) := by
  have hn : (entities.findIdx? fun e => equalsFn e entity) = none :=
    List.findIdx?_eq_none_iff.mpr h
  exact ⟨by simp [InMemoryEntityStrategy.remove, hn],
    by simp [InMemoryEntityStrategy.update, hn]⟩

/-- Witness for C7 at a concrete input. -/
theorem remove_update_no_match_witness :
    InMemoryEntityStrategy.remove [0, 1] 2 (fun a b => a == b) = (false, [0, 1]) ∧
    InMemoryEntityStrategy.update [0, 1] 2 5 (fun a b => a == b) = (false, [0, 1]) :=
  remove_update_no_match [0, 1] 2 5 (fun a b => a == b) (by decide)

/-- C10: a successful in-memory `update` is in-place and position
preserving: the stored list becomes exactly `set i newEntity` where `i`
is the index of the first entity matching the old one under the
equality policy; the length, and every other position, are unchanged. -/
theorem inMemory_update_in_place (es : List T) (o n : T)
    (equalsFn : T → T → Bool) (i : Nat)
    (h : (es.findIdx? fun e => equalsFn e o) = some i) :
    InMemoryEntityStrategy.update es o n equalsFn = (true, es.set i n) ∧
    (es.set i n).length = es.length ∧
    (es.set i n)[i]? = some n ∧
    (∀ j, j ≠ i → (es.set i n)[j]? = es[j]?) ∧
    ∃ hi : i < es.length, equalsFn (es.get ⟨i, hi⟩) o = true ∧
      ∀ j (hj : j < i), equalsFn (es.get ⟨j, Nat.lt_trans hj hi⟩) o = false := by
  obtain ⟨hi, hp, hprev⟩ := List.findIdx?_eq_some_iff_getElem.mp h
  refine ⟨by simp [InMemoryEntityStrategy.update, h], by simp,
    List.getElem?_set_self hi, fun j hj => List.getElem?_set_ne (fun e => hj e.symm),
    hi, by simpa using hp, fun j hj => ?_⟩
  have := hprev j hj
  simpa using this

/-- `max 1 (⌈n / S⌉)` is an upper bound: `n` items fit in that many
pages of size `S`. -/
theorem le_totalPages_mul (n S : Nat) (hS : 1 ≤ S) :
    n ≤ (max 1 ((n + S - 1) / S)) * S := by
  rcases Nat.eq_zero_or_pos n with h0 | h1
  · exact h0 ▸ Nat.zero_le _
  · have hdm := Nat.div_add_mod (n + S - 1) S
    have hml : (n + S - 1) % S < S := Nat.mod_lt _ (by omega)
    have hbase : n ≤ ((n + S - 1) / S) * S := by rw [Nat.mul_comm]; omega
    exact le_trans hbase (Nat.mul_le_mul_right S (le_max_right _ _))

/-- `max 1 (⌈n / S⌉)` is the least page count: any `q ≥ 1` pages of
size `S` that hold all `n` items satisfy `totalPages ≤ q`. -/
theorem totalPages_least (n S q : Nat) (hS : 1 ≤ S) (hq : 1 ≤ q)
    (h : n ≤ q * S) : max 1 ((n + S - 1) / S) ≤ q := by
  have h2 : (n + S - 1) / S < q + 1 := by
    rw [Nat.div_lt_iff_lt_mul (by omega : 0 < S), add_mul, one_mul]
    omega
  omega

/-- Every page strictly before the last is full: at least `S` items
remain after dropping the first `P - 1` pages. -/
theorem full_page_remainder (n S P : Nat) (hS : 1 ≤ S) (hP : 1 ≤ P)
    (h : P < max 1 ((n + S - 1) / S)) : S ≤ n - (P - 1) * S := by
  have hd : P + 1 ≤ (n + S - 1) / S := by omega
  have hmul : (P + 1) * S ≤ ((n + S - 1) / S) * S := Nat.mul_le_mul_right S hd
  have hle : ((n + S - 1) / S) * S ≤ n + S - 1 := Nat.div_mul_le_self _ _
  have hPS : (P + 1) * S = P * S + S := by ring
  have hP1 : (P - 1) * S + S = P * S := by
    have hpp : P - 1 + 1 = P := by omega
    calc (P - 1) * S + S = (P - 1 + 1) * S := by ring
    _ = P * S := by rw [hpp]
  rw [hPS] at hmul
  omega

/-- The slice of the effective last page is non-empty when the input
list is non-empty: the drop offset stays below the length. -/
theorem last_page_offset_lt (n S : Nat) (hS : 1 ≤ S) (hn : 1 ≤ n) :
    ((max 1 ((n + S - 1) / S)) - 1) * S < n := by
  rcases le_or_lt ((n + S - 1) / S) 1 with hd | hd
  · have : max 1 ((n + S - 1) / S) = 1 := by omega
    rw [this]
    simpa using hn
  · have hmax : max 1 ((n + S - 1) / S) = (n + S - 1) / S := by omega
    rw [hmax]
    have hle : ((n + S - 1) / S) * S ≤ n + S - 1 := Nat.div_mul_le_self _ _
    have hsub : ((n + S - 1) / S - 1) * S + S = ((n + S - 1) / S) * S := by
      have hpp : (n + S - 1) / S - 1 + 1 = (n + S - 1) / S := by omega
      calc ((n + S - 1) / S - 1) * S + S = ((n + S - 1) / S - 1 + 1) * S := by ring
      _ = ((n + S - 1) / S) * S := by rw [hpp]
    omega

/-- C2: full functional specification of `paginate` for every input
list and all (possibly out-of-range) integer `page` and `pageSize`:
clamped page size, `totalItems` = input length, `totalPages` is the
least page count `≥ 1` covering all items, the effective page is the
requested page clamped to `[1, totalPages]`, `items` is the
corresponding slice (full except possibly on the effective last page),
and `hasNext` / `hasPrev` compare the effective page with the total. -/
theorem paginate_spec (items : List T) (page pageSize : Int) (r : PageResult T)
    (hr : r = paginate items page pageSize) :
    1 ≤ r.pageSize ∧
    r.pageSize = (max 1 pageSize).toNat ∧
    r.totalItems = items.length ∧
    1 ≤ r.totalPages ∧
    items.length ≤ r.totalPages * r.pageSize ∧
    (∀ q, 1 ≤ q → items.length ≤ q * r.pageSize → r.totalPages ≤ q) ∧
    r.page = min (max 1 page).toNat r.totalPages ∧
    1 ≤ r.page ∧
    r.items = (items.drop ((r.page - 1) * r.pageSize)).take r.pageSize ∧
    r.items.length ≤ r.pageSize ∧
    (r.page < r.totalPages → r.items.length = r.pageSize) ∧
    (r.hasNext = true ↔ r.page < r.totalPages) ∧
    (r.hasPrev = true ↔ 1 < r.page) := by
  subst hr
  have hS1 : (1 : Int) ≤ max 1 pageSize := le_max_left _ _
  have hP1 : (1 : Int) ≤ max 1 page := le_max_left _ _
  set S := (max 1 pageSize).toNat with hSdef
  set SP := (max 1 page).toNat with hSPdef
  set n := items.length with hndef
  set TP := max 1 ((n + S - 1) / S) with hTPdef
  set P := min SP TP with hPdef
  have hS : 1 ≤ S := by omega
  have hSP : 1 ≤ SP := by omega
  have hTP1 : 1 ≤ TP := le_max_left _ _
  have hP : 1 ≤ P := by omega
  show 1 ≤ S ∧ S = S ∧ n = n ∧ 1 ≤ TP ∧ n ≤ TP * S ∧
    (∀ q, 1 ≤ q → n ≤ q * S → TP ≤ q) ∧
    P = min SP TP ∧ 1 ≤ P ∧
    (items.drop ((P - 1) * S)).take S = (items.drop ((P - 1) * S)).take S ∧
    ((items.drop ((P - 1) * S)).take S).length ≤ S ∧
    (P < TP → ((items.drop ((P - 1) * S)).take S).length = S) ∧
    (decide (P < TP) = true ↔ P < TP) ∧
    (decide (P > 1) = true ↔ 1 < P)
  refine ⟨hS, rfl, rfl, hTP1, le_totalPages_mul n S hS,
    fun q hq hle => totalPages_least n S q hS hq hle, rfl, hP, rfl, ?_, ?_,
    by simp, by simp⟩
  · simp only [List.length_take, List.length_drop]
    omega
  · intro hlt
    have hrem := full_page_remainder n S P hS hP hlt
    simp only [List.length_take, List.length_drop]
    omega

/-- Witness for C2 at a concrete input. -/
theorem paginate_spec_witness :
    1 ≤ (paginate [1, 2, 3] 3 5).pageSize ∧
    (paginate [1, 2, 3] 3 5).pageSize = (max 1 (5 : Int)).toNat ∧
    (paginate [1, 2, 3] 3 5).totalItems = [1, 2, 3].length ∧
    1 ≤ (paginate [1, 2, 3] 3 5).totalPages ∧
    [1, 2, 3].length ≤ (paginate [1, 2, 3] 3 5).totalPages
        * (paginate [1, 2, 3] 3 5).pageSize ∧
    (∀ q, 1 ≤ q → [1, 2, 3].length ≤ q * (paginate [1, 2, 3] 3 5).pageSize →
        (paginate [1, 2, 3] 3 5).totalPages ≤ q) ∧
    (paginate [1, 2, 3] 3 5).page
        = min (max 1 (3 : Int)).toNat (paginate [1, 2, 3] 3 5).totalPages ∧
    1 ≤ (paginate [1, 2, 3] 3 5).page ∧
    (paginate [1, 2, 3] 3 5).items
        = ([1, 2, 3].drop (((paginate [1, 2, 3] 3 5).page - 1)
            * (paginate [1, 2, 3] 3 5).pageSize)).take (paginate [1, 2, 3] 3 5).pageSize ∧
    (paginate [1, 2, 3] 3 5).items.length ≤ (paginate [1, 2, 3] 3 5).pageSize ∧
    ((paginate [1, 2, 3] 3 5).page < (paginate [1, 2, 3] 3 5).totalPages →
        (paginate [1, 2, 3] 3 5).items.length = (paginate [1, 2, 3] 3 5).pageSize) ∧
    ((paginate [1, 2, 3] 3 5).hasNext = true
        ↔ (paginate [1, 2, 3] 3 5).page < (paginate [1, 2, 3] 3 5).totalPages) ∧
    ((paginate [1, 2, 3] 3 5).hasPrev = true ↔ 1 < (paginate [1, 2, 3] 3 5).page) :=
  paginate_spec [1, 2, 3] 3 5 (paginate [1, 2, 3] 3 5) rfl

/-- C6: when the filtered list is non-empty and the requested page
exceeds `totalPages`, `paginate` (hence the fallback and in-memory
`findPage`) returns the last page: field `page` equals `totalPages`,
`items` are exactly the last page's items, and the result is not
empty. -/
theorem paginate_past_end (items : List T) (page pageSize : Int)
    (hne : items ≠ [])
    (hpast : ((paginate items page pageSize).totalPages : Int) < page) :
    (paginate items page pageSize).page = (paginate items page pageSize).totalPages ∧
    (paginate items page pageSize).items
        = (paginate items ((paginate items page pageSize).totalPages : Int) pageSize).items ∧
    (paginate items page pageSize).items ≠ [] := by
  have hS1 : (1 : Int) ≤ max 1 pageSize := le_max_left _ _
  have hn0 : 0 < items.length := List.length_pos.mpr hne
  set S := (max 1 pageSize).toNat with hSdef
  set SP := (max 1 page).toNat with hSPdef
  set n := items.length with hndef
  set TP := max 1 ((n + S - 1) / S) with hTPdef
  set P := min SP TP with hPdef
  have hS : 1 ≤ S := by omega
  have hTP1 : 1 ≤ TP := le_max_left _ _
  have hpast' : (TP : Int) < page := hpast
  have hPeq : P = TP := by omega
  have hSP2 : (max 1 ((TP : Nat) : Int)).toNat = TP := by omega
  have hoff : (TP - 1) * S < n := last_page_offset_lt n S hS (by omega)
  refine ⟨?_, ?_, ?_⟩
  · show P = TP
    exact hPeq
  · show (items.drop ((P - 1) * S)).take S
        = (items.drop ((min ((max 1 ((TP : Nat) : Int)).toNat) TP - 1) * S)).take S
    rw [hPeq, hSP2, Nat.min_self]
  · show (items.drop ((P - 1) * S)).take S ≠ []
    rw [hPeq, ← List.length_pos]
    simp only [List.length_take, List.length_drop]
    omega

/-- Witness for C6 at a concrete input. -/
theorem paginate_past_end_witness :
    (paginate [1, 2, 3] 5 2).page = (paginate [1, 2, 3] 5 2).totalPages ∧
    (paginate [1, 2, 3] 5 2).items
        = (paginate [1, 2, 3] ((paginate [1, 2, 3] 5 2).totalPages : Int) 2).items ∧
    (paginate [1, 2, 3] 5 2).items ≠ [] :=
  paginate_past_end [1, 2, 3] 5 2 (by decide)
    (by norm_num [paginate])

/-- C3: the query filter engine keeps exactly the entities passing the
main predicate (vacuously true when absent) and every entry of the
filters list, in input order (the input, a pure value here, is not
mutated); when `sortBy` is present the filtered sequence is sorted by
the comparator with a stable sort: the result is a permutation of the
filtered list, pairwise ordered by `cmp · · ≤ 0` (for a transitive,
total comparator), and any comparator-ordered pair keeps its filtered
relative order. -/
theorem applyFunctionalFilters_spec (items : List T)
    (options : Option (QueryOptions T)) (cmp : T → T → Int)
    (htrans : ∀ a b c : T, sortLe cmp a b = true → sortLe cmp b c = true →
        sortLe cmp a c = true)
    (htotal : ∀ a b : T, (sortLe cmp a b || sortLe cmp b a) = true) :
    ((options.bind fun o => o.sortBy) = none →
        applyFunctionalFilters items options
          = items.filter (passesFilters (options.bind fun o => o.predicate)
              ((options.bind fun o => o.filters).getD []))) ∧
    ((options.bind fun o => o.sortBy) = some cmp →
        (applyFunctionalFilters items options).Perm
          (items.filter (passesFilters (options.bind fun o => o.predicate)
              ((options.bind fun o => o.filters).getD []))) ∧
        List.Pairwise (fun a b => sortLe cmp a b = true)
          (applyFunctionalFilters items options) ∧
        ∀ a b : T, sortLe cmp a b = true →
          List.Sublist [a, b]
            (items.filter (passesFilters (options.bind fun o => o.predicate)
              ((options.bind fun o => o.filters).getD []))) →
          List.Sublist [a, b] (applyFunctionalFilters items options)) := by
  constructor
  · intro hnone
    simp only [applyFunctionalFilters, hnone]
  · intro hsome
    simp only [applyFunctionalFilters, hsome]
    refine ⟨List.mergeSort_perm _ _, ?_, ?_⟩
    · exact List.sorted_mergeSort (fun a b c => htrans a b c) (fun a b => htotal a b) _
    · intro a b hab hsub
      exact List.pair_sublist_mergeSort (fun x y z => htrans x y z)
        (fun x y => htotal x y) hab hsub

/-- Witness for C3 at a concrete input. -/
theorem applyFunctionalFilters_spec_witness :
    (((some sampleSortOptions : Option (QueryOptions Nat)).bind fun o => o.sortBy) = none →
        applyFunctionalFilters [3, 1, 2, 1] (some sampleSortOptions)
          = [3, 1, 2, 1].filter (passesFilters
              ((some sampleSortOptions : Option (QueryOptions Nat)).bind fun o => o.predicate)
              (((some sampleSortOptions : Option (QueryOptions Nat)).bind fun o => o.filters).getD []))) ∧
    (((some sampleSortOptions : Option (QueryOptions Nat)).bind fun o => o.sortBy) = some sampleCmp →
        (applyFunctionalFilters [3, 1, 2, 1] (some sampleSortOptions)).Perm
          ([3, 1, 2, 1].filter (passesFilters
              ((some sampleSortOptions : Option (QueryOptions Nat)).bind fun o => o.predicate)
              (((some sampleSortOptions : Option (QueryOptions Nat)).bind fun o => o.filters).getD []))) ∧
        List.Pairwise (fun a b => sortLe sampleCmp a b = true)
          (applyFunctionalFilters [3, 1, 2, 1] (some sampleSortOptions)) ∧
        ∀ a b : Nat, sortLe sampleCmp a b = true →
          List.Sublist [a, b]
            ([3, 1, 2, 1].filter (passesFilters
              ((some sampleSortOptions : Option (QueryOptions Nat)).bind fun o => o.predicate)
              (((some sampleSortOptions : Option (QueryOptions Nat)).bind fun o => o.filters).getD []))) →
          List.Sublist [a, b] (applyFunctionalFilters [3, 1, 2, 1] (some sampleSortOptions))) :=
  applyFunctionalFilters_spec [3, 1, 2, 1] (some sampleSortOptions) sampleCmp
    (by
      intro a b c hab hbc
      simp only [sortLe, sampleCmp, decide_eq_true_eq] at *
      omega)
    (by
      intro a b
      simp only [sortLe, sampleCmp]
      rcases le_total a b with h | h
      · have hab : (a : Int) - b ≤ 0 := by omega
        simp [hab]
      · have hba : (b : Int) - a ≤ 0 := by omega
        simp [hba])

/-- C9: `getAll` hands back a structurally independent copy.  In the
reference heap model: the returned reference holds the same sequence as
the stored one, is distinct from the strategy's internal reference, and
writing anything through the returned reference leaves every subsequent
`getAll` read and `count` of the strategy unchanged. -/
theorem getAll_independent_copy (h : Heap T) (entitiesRef : Nat)
    (hvalid : entitiesRef < h.cells.length) :
    (getAllRef h entitiesRef).1.read (getAllRef h entitiesRef).2
        = h.read entitiesRef ∧
    (getAllRef h entitiesRef).2 ≠ entitiesRef ∧
    ∀ v : List T,
      ((getAllRef h entitiesRef).1.write (getAllRef h entitiesRef).2 v).read entitiesRef
          = h.read entitiesRef ∧
      countRef ((getAllRef h entitiesRef).1.write (getAllRef h entitiesRef).2 v) entitiesRef
          = countRef h entitiesRef := by
  have hfresh : (getAllRef h entitiesRef).2 = h.cells.length := rfl
  have hne : (getAllRef h entitiesRef).2 ≠ entitiesRef := by omega
  refine ⟨?_, hne, fun v => ?_⟩
  · show (Heap.read ⟨h.cells ++ [h.read entitiesRef]⟩ h.cells.length) = h.read entitiesRef
    simp [Heap.read, List.getElem?_concat_length]
  · have hread : ((getAllRef h entitiesRef).1.write (getAllRef h entitiesRef).2 v).read
        entitiesRef = h.read entitiesRef := by
      show (Heap.read ⟨(h.cells ++ [h.read entitiesRef]).set h.cells.length v⟩ entitiesRef)
          = h.read entitiesRef
      simp only [Heap.read]
      rw [List.getElem?_set_ne (by omega), List.getElem?_append_left hvalid]
    exact ⟨hread, by simp only [countRef, hread]⟩

/-- Witness for C9 at a concrete input. -/
theorem getAll_independent_copy_witness :
    (getAllRef (⟨[[1, 2]]⟩ : Heap Nat) 0).1.read (getAllRef (⟨[[1, 2]]⟩ : Heap Nat) 0).2
        = Heap.read ⟨[[1, 2]]⟩ 0 ∧
    (getAllRef (⟨[[1, 2]]⟩ : Heap Nat) 0).2 ≠ 0 ∧
    ∀ v : List Nat,
      ((getAllRef (⟨[[1, 2]]⟩ : Heap Nat) 0).1.write
          (getAllRef (⟨[[1, 2]]⟩ : Heap Nat) 0).2 v).read 0
        = Heap.read ⟨[[1, 2]]⟩ 0 ∧
      countRef ((getAllRef (⟨[[1, 2]]⟩ : Heap Nat) 0).1.write
          (getAllRef (⟨[[1, 2]]⟩ : Heap Nat) 0).2 v) 0
        = countRef (⟨[[1, 2]]⟩ : Heap Nat) 0 :=
  getAll_independent_copy ⟨[[1, 2]]⟩ 0 (by decide)

/-- C8: when the primary `repo.remove` faults, the TypeORM strategy's
`remove` rescans with the equality policy: no match reports `false`
(swallowing the original fault), a match (whose own removal succeeds)
is removed and `true` is reported. -/
theorem typeorm_remove_fallback (repo : TypeOrmRepo) (entity : Obj)
    (equalsFn : Obj → Obj → Bool)
    (hfault : repo.removeFaultsOn entity = true) :
    ((repo.rows.find? fun e => equalsFn e entity) = none →
        TypeOrmEntityStrategy.remove repo entity equalsFn
          = .ok (false, repo.rows)) ∧
    ∀ m, (repo.rows.find? fun e => equalsFn e entity) = some m →
        repo.removeFaultsOn m = false →
        TypeOrmEntityStrategy.remove repo entity equalsFn
          = .ok (true, repo.rows.erase m) := by
  constructor
  · intro hnone
    simp [TypeOrmEntityStrategy.remove, hfault, hnone]
  · intro m hm hok
    simp [TypeOrmEntityStrategy.remove, hfault, hm, hok]

/-- Witness for C8 at a concrete input: the detached record with two
keys faults in the primary remove, the stored one-key row matches by
`id` and is removed. -/
theorem typeorm_remove_fallback_witness :
    ((sampleRepo.rows.find? fun e => eqById e [("id", 1), ("x", 5)]) = none →
        TypeOrmEntityStrategy.remove sampleRepo [("id", 1), ("x", 5)] eqById
          = .ok (false, sampleRepo.rows)) ∧
    ∀ m, (sampleRepo.rows.find? fun e => eqById e [("id", 1), ("x", 5)]) = some m →
        sampleRepo.removeFaultsOn m = false →
        TypeOrmEntityStrategy.remove sampleRepo [("id", 1), ("x", 5)] eqById
          = .ok (true, sampleRepo.rows.erase m) :=
  typeorm_remove_fallback sampleRepo [("id", 1), ("x", 5)] eqById (by decide)

/-- C4 counterexample: against the TypeORM strategy (shipped with the
library), `update` with an empty repository and a never-faulting save
returns `true` although no stored entity matches the old entity under
the equality policy, and the saved record is the spread-merge of the
old and new entities, not the new entity itself. -/
theorem typeorm_update_counterexample :
    TypeOrmEntityStrategy.update
        { rows := [], removeFaultsOn := fun _ => false, saveFaultsOn := fun _ => false }
        [("id", 1), ("x", 5)] [("id", 1)] eqById
      = .ok (true, some [("id", 1), ("x", 5)]) ∧
    (([] : List Obj).find? fun e => eqById e [("id", 1), ("x", 5)]) = none ∧
    ([("id", 1), ("x", 5)] : Obj) ≠ [("id", 1)] := by
  refine ⟨rfl, rfl, by decide⟩

/-- C4 amended: the in-memory strategy's `update` locates the old
entity via the equality policy, replaces it wholesale, and returns
`true` iff a match was found, never throwing; the TypeORM strategy's
`update` instead saves the spread-merge of the old and new entities and
reports `true` whenever that save succeeds regardless of any match, and
only on a save fault falls back to an equality scan: `false` iff the
scan finds nothing, else it saves the merge of the matched row and the
new entity. -/
theorem update_policy_amended (es : List T) (o n : T) (equalsFn : T → T → Bool)
    (repo : TypeOrmRepo) (oldE newE : Obj) (eqFn : Obj → Obj → Bool) :
    ((InMemoryEntityStrategy.update es o n equalsFn).1 = true
        ↔ (es.findIdx? fun e => equalsFn e o).isSome = true) ∧
    (∀ i, (es.findIdx? fun e => equalsFn e o) = some i →
        InMemoryEntityStrategy.update es o n equalsFn = (true, es.set i n)) ∧
    ((es.findIdx? fun e => equalsFn e o) = none →
        InMemoryEntityStrategy.update es o n equalsFn = (false, es)) ∧
    (repo.saveFaultsOn (spread oldE newE) = false →
        TypeOrmEntityStrategy.update repo oldE newE eqFn
          = .ok (true, some (spread oldE newE))) ∧
    (repo.saveFaultsOn (spread oldE newE) = true →
        ((repo.rows.find? fun e => eqFn e oldE) = none →
            TypeOrmEntityStrategy.update repo oldE newE eqFn = .ok (false, none)) ∧
        ∀ m, (repo.rows.find? fun e => eqFn e oldE) = some m →
            repo.saveFaultsOn (spread m newE) = false →
            TypeOrmEntityStrategy.update repo oldE newE eqFn
              = .ok (true, some (spread m newE))) := by
  refine ⟨?_, ?_, ?_, ?_, ?_⟩
  · cases hf : es.findIdx? fun e => equalsFn e o with
    | none => simp [InMemoryEntityStrategy.update, hf]
    | some i => simp [InMemoryEntityStrategy.update, hf]
  · intro i hf
    simp [InMemoryEntityStrategy.update, hf]
  · intro hf
    simp [InMemoryEntityStrategy.update, hf]
  · intro hok
    simp [TypeOrmEntityStrategy.update, hok]
  · intro hbad
    constructor
    · intro hnone
      simp [TypeOrmEntityStrategy.update, hbad, hnone]
    · intro m hm hok
      simp [TypeOrmEntityStrategy.update, hbad, hm, hok]

/-- Witness for the amended C4 at concrete inputs. -/
theorem update_policy_amended_witness :
    ((InMemoryEntityStrategy.update [10, 20] 20 99 (fun a b => a == b)).1 = true
        ↔ ([10, 20].findIdx? fun e => (fun a b => a == b) e 20).isSome = true) ∧
    (∀ i, ([10, 20].findIdx? fun e => (fun a b => a == b) e 20) = some i →
        InMemoryEntityStrategy.update [10, 20] 20 99 (fun a b => a == b)
          = (true, [10, 20].set i 99)) ∧
    (([10, 20].findIdx? fun e => (fun a b => a == b) e 20) = none →
        InMemoryEntityStrategy.update [10, 20] 20 99 (fun a b => a == b)
          = (false, [10, 20])) ∧
    (sampleRepo.saveFaultsOn (spread [("id", 1), ("x", 5)] [("id", 1)]) = false →
        TypeOrmEntityStrategy.update sampleRepo [("id", 1), ("x", 5)] [("id", 1)] eqById
          = .ok (true, some (spread [("id", 1), ("x", 5)] [("id", 1)]))) ∧
    (sampleRepo.saveFaultsOn (spread [("id", 1), ("x", 5)] [("id", 1)]) = true →
        ((sampleRepo.rows.find? fun e => eqById e [("id", 1), ("x", 5)]) = none →
            TypeOrmEntityStrategy.update sampleRepo [("id", 1), ("x", 5)] [("id", 1)] eqById
              = .ok (false, none)) ∧
        ∀ m, (sampleRepo.rows.find? fun e => eqById e [("id", 1), ("x", 5)]) = some m →
            sampleRepo.saveFaultsOn (spread m [("id", 1)]) = false →
            TypeOrmEntityStrategy.update sampleRepo [("id", 1), ("x", 5)] [("id", 1)] eqById
              = .ok (true, some (spread m [("id", 1)]))) :=
  update_policy_amended [10, 20] 20 99 (fun a b => a == b) sampleRepo
    [("id", 1), ("x", 5)] [("id", 1)] eqById

/-- Witness for C10 at a concrete input. -/
theorem inMemory_update_in_place_witness :
    InMemoryEntityStrategy.update [10, 20, 30] 20 99 (fun a b => a == b)
        = (true, [10, 20, 30].set 1 99) ∧
    ([10, 20, 30].set 1 99).length = [10, 20, 30].length ∧
    ([10, 20, 30].set 1 99)[1]? = some 99 ∧
    (∀ j, j ≠ 1 → ([10, 20, 30].set 1 99)[j]? = [10, 20, 30][j]?) ∧
    ∃ hi : 1 < [10, 20, 30].length,
      ([10, 20, 30].get ⟨1, hi⟩ == 20) = true ∧
      ∀ j (hj : j < 1), ([10, 20, 30].get ⟨j, Nat.lt_trans hj hi⟩ == 20) = false :=
  inMemory_update_in_place [10, 20, 30] 20 99 (fun a b => a == b) 1 (by decide)

end GEM
